import Mathlib

/-!
Verification of the DayZ killfeed log monitor (`killfeed.py`).

The program is shallowly embedded: strings are `List Char`, Python floats are
exact rationals, the four kill-event regular expressions (and the two ADM
filename patterns) are translated token-by-token into an executable
backtracking matcher with Python `re` semantics (leftmost search, greedy
repetitions try longest first, lazy repetitions shortest first, alternation
prefers the left branch, `.` does not match a newline, `$` matches at the end
of the string or just before a terminating newline).  Fallible Python code is
embedded in `Except`/`Option`.
-/

set_option maxRecDepth 100000
set_option maxHeartbeats 4000000

/-- Python strings are modelled as lists of characters. -/
abbrev Str := List Char

/-- Python `needle in haystack` substring test. -/
def containsSub (haystack needle : Str) : Bool :=
  if needle.isPrefixOf haystack then true
  else
    match haystack with
    | [] => false
    | _ :: rest => containsSub rest needle

/-! ## Regex engine

Each of the six regular expressions of `killfeed.py` is a plain concatenation
of the following token kinds, so a pattern is embedded as a `List Tok`:

* a literal run of characters;
* a capturing group made of a fixed-length sequence of single-character
  classes (used for the timestamp groups such as `(\d{2}:\d{2}:\d{2})`);
* a greedy capturing repetition `(C+)` of a single-character class
  (used for `([^"]+)`, `([\d.]+)`, `(.+)`, `(\d+)`);
* a lazy capturing repetition `(C+?)` (used for `(.+?)`);
* a greedy non-capturing star `.*`;
* an optional literal (used for the `s?` of `meters?`);
* the non-capturing alternation `(?:\s|$)`.
-/

/-- One token of a compiled pattern. -/
inductive Tok where
  | lit : Str → Tok
  | grpFixed : Nat → List (Char → Bool) → Tok
  | grpPlusG : Nat → (Char → Bool) → Tok
  | grpPlusL : Nat → (Char → Bool) → Tok
  | starG : (Char → Bool) → Tok
  | optLit : Str → Tok
  | wsOrEnd : Tok

/-- Captured groups: group index paired with the captured slice. -/
abbrev Caps := List (Nat × Str)

/-- Does a fixed-length sequence of character classes match a prefix of `s`? -/
def matchClasses : List (Char → Bool) → Str → Bool
  | [], _ => true
  | _ :: _, [] => false
  | p :: ps, c :: cs => p c && matchClasses ps cs

/-- Try `f k, f (k-1), ..., f 0` and return the first success
(priority order of a greedy repetition: longest first). -/
def firstSomeDesc (f : Nat → Option α) : Nat → Option α
  | 0 => f 0
  | k + 1 =>
    match f (k + 1) with
    | some y => some y
    | none => firstSomeDesc f k

/-- Try `f lo, f (lo+1), ...` for `fuel` steps and return the first success
(priority order of a lazy repetition: shortest first). -/
def firstSomeAsc (f : Nat → Option α) (lo : Nat) : Nat → Option α
  | 0 => none
  | fuel + 1 =>
    match f lo with
    | some y => some y
    | none => firstSomeAsc f (lo + 1) fuel

/-- Python `\s` (ASCII whitespace; the log lines are ASCII). -/
def isPySpace (c : Char) : Bool :=
  c == ' ' || c == '\t' || c == '\n' || c == '\r' || c == '\x0b' || c == '\x0c'

/-- `$` of Python `re` without `MULTILINE`: end of string, or just before a
newline that ends the string. -/
def atEndOfStr (s : Str) : Bool :=
  s.isEmpty || s == ['\n']

/-- Match one token against `s` and hand the remaining suffix to the
continuation `k`, backtracking in Python priority order. -/
def stepTok (t : Tok) (k : Str → Option Caps) (s : Str) : Option Caps :=
  match t with
  | .lit l => if l.isPrefixOf s then k (s.drop l.length) else none
  | .grpFixed g ps =>
    if matchClasses ps s then
      (k (s.drop ps.length)).map (fun caps => (g, s.take ps.length) :: caps)
    else none
  | .grpPlusG g p =>
    firstSomeDesc
      (fun j =>
        if j = 0 then none
        else (k (s.drop j)).map (fun caps => (g, s.take j) :: caps))
      (s.takeWhile p).length
  | .grpPlusL g p =>
    firstSomeAsc
      (fun j => (k (s.drop j)).map (fun caps => (g, s.take j) :: caps))
      1 (s.takeWhile p).length
  | .starG p =>
    firstSomeDesc (fun j => k (s.drop j)) (s.takeWhile p).length
  | .optLit l =>
    if l.isPrefixOf s then
      match k (s.drop l.length) with
      | some caps => some caps
      | none => k s
    else k s
  | .wsOrEnd =>
    match
      (match s with
       | c :: r => if isPySpace c then k r else none
       | [] => none)
    with
    | some caps => some caps
    | none => if atEndOfStr s then k s else none

/-- Match a whole pattern at the start of `s` (Python `re.match`): the
pattern may consume any prefix of `s`. -/
def matchToks (toks : List Tok) : Str → Option Caps :=
  toks.foldr stepTok (fun _ => some [])

/-- Python `re.search`: try to match at position 0, then 1, ... and return
the captures of the leftmost successful match. -/
def reSearch (toks : List Tok) (s : Str) : Option Caps :=
  match matchToks toks s with
  | some caps => some caps
  | none =>
    match s with
    | [] => none
    | _ :: rest => reSearch toks rest

/-! ## Event extractor (`parse_kill_event` / `extract_kill_data`) -/

/-- `\d` (the log lines are ASCII). -/
def isDigitB (c : Char) : Bool := c.isDigit

/-- `[^"]`. -/
def notQuote (c : Char) : Bool := c != '"'

/-- `.` without DOTALL: any character except a newline. -/
def notNL (c : Char) : Bool := c != '\n'

/-- `[\d.]`. -/
def digitDot (c : Char) : Bool := c.isDigit || c == '.'

/-- The literal `:` inside the timestamp groups. -/
def isColonB (c : Char) : Bool := c == ':'

/-- The literal `-` inside the dash timestamp groups. -/
def isDashB (c : Char) : Bool := c == '-'

/-- `(\d{2}:\d{2}:\d{2})` -/
def hmsClasses : List (Char → Bool) :=
  [isDigitB, isDigitB, isColonB, isDigitB, isDigitB, isColonB, isDigitB, isDigitB]

/-- `(\d{4}-\d{2}-\d{2}:\d{2}:\d{2}:\d{2})` -/
def ymdhmsClasses : List (Char → Bool) :=
  [isDigitB, isDigitB, isDigitB, isDigitB, isDashB, isDigitB, isDigitB, isDashB,
   isDigitB, isDigitB, isColonB, isDigitB, isDigitB, isColonB, isDigitB, isDigitB,
   isColonB, isDigitB, isDigitB]

/-- `(\d{2}:\d{2}:\d{2}) \| Player "([^"]+)" .*killed by Player "([^"]+)" .*with (.+?) from ([\d.]+) meters?` -/
def killPat1 : List Tok :=
  [.grpFixed 1 hmsClasses, .lit " | Player \"".data, .grpPlusG 2 notQuote,
   .lit "\" ".data, .starG notNL, .lit "killed by Player \"".data, .grpPlusG 3 notQuote,
   .lit "\" ".data, .starG notNL, .lit "with ".data, .grpPlusL 4 notNL,
   .lit " from ".data, .grpPlusG 5 digitDot, .lit " meter".data, .optLit "s".data]

/-- `(\d{2}:\d{2}:\d{2}) \| Player "([^"]+)" .*killed by Player "([^"]+)" .*with (.+?)(?:\s|$)` -/
def killPat2 : List Tok :=
  [.grpFixed 1 hmsClasses, .lit " | Player \"".data, .grpPlusG 2 notQuote,
   .lit "\" ".data, .starG notNL, .lit "killed by Player \"".data, .grpPlusG 3 notQuote,
   .lit "\" ".data, .starG notNL, .lit "with ".data, .grpPlusL 4 notNL, .wsOrEnd]

/-- `(\d{4}-\d{2}-\d{2}:\d{2}:\d{2}:\d{2}) \| Player "([^"]+)" .*has been killed by player "([^"]+)" .*with (.+) from ([\d.]+)m` -/
def killPat3 : List Tok :=
  [.grpFixed 1 ymdhmsClasses, .lit " | Player \"".data, .grpPlusG 2 notQuote,
   .lit "\" ".data, .starG notNL, .lit "has been killed by player \"".data,
   .grpPlusG 3 notQuote, .lit "\" ".data, .starG notNL, .lit "with ".data,
   .grpPlusG 4 notNL, .lit " from ".data, .grpPlusG 5 digitDot, .lit "m".data]

/-- `(\d{4}-\d{2}-\d{2}:\d{2}:\d{2}:\d{2}) \| Player "([^"]+)" .*has been killed by player "([^"]+)" .*with (.+)` -/
def killPat4 : List Tok :=
  [.grpFixed 1 ymdhmsClasses, .lit " | Player \"".data, .grpPlusG 2 notQuote,
   .lit "\" ".data, .starG notNL, .lit "has been killed by player \"".data,
   .grpPlusG 3 notQuote, .lit "\" ".data, .starG notNL, .lit "with ".data,
   .grpPlusG 4 notNL]

/-- `self.kill_patterns`, in source order (first match wins). -/
def kill_patterns : List (List Tok) := [killPat1, killPat2, killPat3, killPat4]

/-- Number of capturing groups of a compiled pattern (`len(match.groups())`). -/
def countGroups : List Tok → Nat
  | [] => 0
  | .grpFixed _ _ :: ts => countGroups ts + 1
  | .grpPlusG _ _ :: ts => countGroups ts + 1
  | .grpPlusL _ _ :: ts => countGroups ts + 1
  | _ :: ts => countGroups ts

/-- `"killed by Player"`, the first canonical PvP phrase. -/
def pvpPhrase1 : Str := "killed by Player".data

/-- `"has been killed by player"`, the second canonical PvP phrase. -/
def pvpPhrase2 : Str := "has been killed by player".data

/-- The PvP gate of `extract_kill_data` (line 187 of the source). -/
def containsPvpPhrase (line : Str) : Bool :=
  containsSub line pvpPhrase1 || containsSub line pvpPhrase2

/-- The only Python exception reachable in the embedded fragment
(`float()` on a malformed numeric string). -/
inductive PyExn where
  | valueError
deriving DecidableEq

/-- A parsed PvP kill event (the `kill_data` dict).  Capture values are
`Option Str` exactly as Python's `match.group` values are `Optional[str]`. -/
structure KillData where
  timestamp : Str
  victim : Option Str
  killer : Option Str
  weapon : Option Str
  distance : ℚ
  original_line : Str
deriving DecidableEq

/-- Digit-string to number, as Python `int` on a digit string. -/
def digitsToNat (s : Str) : Nat :=
  s.foldl (fun n c => n * 10 + (c.toNat - '0'.toNat)) 0

/-- Python `float()` restricted to its only call site here: the argument is a
capture of `[\d.]+`.  It succeeds on strings of digits containing at most one
dot and at least one digit (`"12"`, `"1.5"`, `"1."`, `".5"`) and raises
`ValueError` otherwise (`"."`, `"1.2.3"`).  The value is exact (floats are
modelled as rationals). -/
def pyFloatOfDigitsDots (s : Str) : Option ℚ :=
  if s.isEmpty || !s.all digitDot || 1 < s.count '.' || s.all (fun c => c == '.') then
    none
  else
    let intPart := s.takeWhile (fun c => c != '.')
    let fracPart := (s.dropWhile (fun c => c != '.')).drop 1
    if fracPart.isEmpty then some (digitsToNat intPart : ℚ)
    else
      some ((digitsToNat intPart : ℚ) + (digitsToNat fracPart : ℚ) / ((10 : ℚ) ^ fracPart.length))

/-- `timestamp = groups[0] if groups[0] else datetime.now().strftime(...)`
(line 192); `now` stands for the strftime fallback. -/
def killTimestamp (now : Str) (caps : Caps) : Str :=
  match caps.lookup 1 with
  | some t => if t.isEmpty then now else t
  | none => now

/-- `distance = float(groups[4]) if len(groups) > 4 and groups[4] else 0`
(line 197); the `.error` is the uncaught `ValueError` of `float`. -/
def killDistanceRes (caps : Caps) (pat : List Tok) : Except PyExn ℚ :=
  if 4 < countGroups pat then
    match caps.lookup 5 with
    | some d =>
      if d.isEmpty then .ok 0
      else
        match pyFloatOfDigitsDots d with
        | some q => .ok q
        | none => .error .valueError
    | none => .ok 0
  else .ok 0

/-- `extract_kill_data(match, pattern, original_line)` (lines 182–210). -/
def extract_kill_data (now : Str) (caps : Caps) (pat : List Tok) (original_line : Str) :
    Except PyExn (Option KillData) :=
  if !containsPvpPhrase original_line then .ok none
  else if 4 ≤ countGroups pat then
    match killDistanceRes caps pat with
    | .ok distance =>
      .ok (some { timestamp := killTimestamp now caps, victim := caps.lookup 2,
                  killer := caps.lookup 3, weapon := caps.lookup 4,
                  distance := distance, original_line := original_line })
    | .error e => .error e
  else .ok none

/-- The `for pattern in self.kill_patterns` loop of `parse_kill_event`. -/
def findFirstMatch : List (List Tok) → Str → Option (List Tok × Caps)
  | [], _ => none
  | p :: ps, line =>
    match reSearch p line with
    | some caps => some (p, caps)
    | none => findFirstMatch ps line

/-- `parse_kill_event(line)` (lines 174–180). -/
def parse_kill_event (now line : Str) : Except PyExn (Option KillData) :=
  match findFirstMatch kill_patterns line with
  | some (pat, caps) => extract_kill_data now caps pat line
  | none => .ok none

/-! ## Message formatter (`sanitize_discord_text` / `format_discord_message`) -/

/-- The six Discord markup characters, in source order (backslash first). -/
def escape_chars : List Char := ['\\', '*', '_', '\x60', '~', '|']

/-- Python `s.replace(old, rep)` for a single-character `old`. -/
def pyReplaceChar (s : Str) (old : Char) (rep : Str) : Str :=
  s.flatMap fun c => if c = old then rep else [c]

/-- `sanitize_discord_text` (lines 212–224): sequentially replaces each
markup character `c` by `\c`, backslash first. -/
def sanitize_discord_text (text : Str) : Str :=
  if text.isEmpty then text
  else escape_chars.foldl (fun sanitized ch => pyReplaceChar sanitized ch ['\\', ch]) text

/-- How Python renders an `Optional[str]` inside an f-string (`None` prints
as `"None"`). -/
def pyStrOfOpt : Option Str → Str
  | some s => s
  | none => "None".data

/-- `sanitize_discord_text` as called on an `Optional[str]` field: `None` is
falsy, so the `if not text: return text` guard returns it unchanged. -/
def sanitizeOptPy : Option Str → Option Str
  | none => none
  | some s => some (sanitize_discord_text s)

/-- Rounding of Python's `f"{x:.0f}"`: round half to even.  The floats here
are exact rationals, so no binary-representation error is modelled. -/
def pyRoundHalfEven (q : ℚ) : ℤ :=
  if q - (⌊q⌋ : ℚ) < 1/2 then ⌊q⌋
  else if (1 : ℚ)/2 < q - (⌊q⌋ : ℚ) then ⌊q⌋ + 1
  else if ⌊q⌋ % 2 = 0 then ⌊q⌋ else ⌊q⌋ + 1

/-- Decimal digits of a natural number (fuel-structured so that it computes
by kernel reduction). -/
def natDigitsAux : Nat → Nat → Str
  | 0, _ => []
  | fuel + 1, n =>
    if n < 10 then [Char.ofNat (n + 48)]
    else natDigitsAux fuel (n / 10) ++ [Char.ofNat (n % 10 + 48)]

/-- Decimal rendering of a natural number. -/
def natDigits (n : Nat) : Str := natDigitsAux (n + 1) n

/-- Decimal rendering of an integer (the `N` of `f"{x:.0f}"`). -/
def intDigits (i : ℤ) : Str :=
  if i < 0 then '-' :: natDigits i.natAbs else natDigits i.natAbs

/-- `format_discord_message` (lines 226–238). -/
def format_discord_message (kill_data : Option KillData) : Str :=
  match kill_data with
  | none => []
  | some kd =>
    let distance_str : Str :=
      if 0 < kd.distance then
        " (".data ++ intDigits (pyRoundHalfEven kd.distance) ++ "m)".data
      else []
    let weapon_str : Option Str :=
      if kd.weapon ≠ some "Unknown".data then kd.weapon else some "unknown weapon".data
    let safe_killer := sanitizeOptPy kd.killer
    let safe_victim := sanitizeOptPy kd.victim
    "**".data ++ pyStrOfOpt safe_killer ++ "** killed **".data ++ pyStrOfOpt safe_victim
      ++ "** with ".data ++ pyStrOfOpt weapon_str ++ distance_str

/-! ## Delivery queue (`queue_message` / `process_message_queue` /
`graceful_shutdown`)

Wall-clock instants are integers (seconds); `send : Str → Bool` stands for
`send_to_discord`, whose boolean result the drain loop ignores. -/

/-- `DELAY_BEFORE_SEND` (line 34). -/
def DELAY_BEFORE_SEND : ℤ := 300

/-- One entry of `self.message_queue`: `(message, send_time)`. -/
structure QMsg where
  text : Str
  sendAfter : ℤ
deriving DecidableEq

/-- `queue_message` (lines 240–245): append unless the message is falsy. -/
def queue_message (q : List QMsg) (now : ℤ) (message : Str) : List QMsg :=
  if message.isEmpty then q else q ++ [⟨message, now + DELAY_BEFORE_SEND⟩]

/-- The partition loop of one `process_message_queue` cycle (lines 255–260):
walk the queue once, appending due messages to `messages_to_send` and the
rest to `remaining_messages`. -/
def drainPartitionLoop (q : List QMsg) (now : ℤ) : List Str × List QMsg :=
  q.foldl
    (fun acc m =>
      if m.sendAfter ≤ now then (acc.1 ++ [m.text], acc.2) else (acc.1, acc.2 ++ [m]))
    ([], [])

/-- One wake of `process_message_queue` (lines 251–267): partition, replace
the queue by the remaining messages, send each due message once (result
ignored).  Returns the attempted deliveries and the new queue. -/
def process_message_queue_cycle (q : List QMsg) (now : ℤ) (send : Str → Bool) :
    List (Str × Bool) × List QMsg :=
  let part := drainPartitionLoop q now
  (part.1.map (fun m => (m, send m)), part.2)

/-- `graceful_shutdown` (lines 275–293): if the queue is non-empty, attempt
every message (exceptions per message are caught) and clear the queue. -/
def graceful_shutdown_flush (q : List QMsg) (send : Str → Bool) :
    List (Str × Bool) × List QMsg :=
  if q.isEmpty then ([], q)
  else (q.map (fun m => (m.text, send m.text)), [])

/-! ## Tailing engine (`monitor_single_file` / `monitor_latest_file`) -/

/-- The `readline` loop (lines 405–411): all newline-terminated lines of `s`
plus a final unterminated fragment if any, terminators kept. -/
def pyReadLinesAux : Str → Str → List Str
  | [], acc => if acc.isEmpty then [] else [acc.reverse]
  | c :: rest, acc =>
    if c = '\n' then (acc.reverse ++ ['\n']) :: pyReadLinesAux rest []
    else pyReadLinesAux rest (c :: acc)

/-- All lines Python's `readline` loop yields for buffer `s`. -/
def pyReadLines (s : Str) : List Str := pyReadLinesAux s []

/-- The per-line pipeline loop (lines 417–422): parse, format, queue.  Stops
early (with `true`) when `parse_kill_event` raises; returns the messages
queued so far. -/
def processLinesLoop (now : Str) : List Str → List Str → List Str × Bool
  | [], acc => (acc, false)
  | line :: rest, acc =>
    match parse_kill_event now line with
    | .error _ => (acc, true)
    | .ok none => processLinesLoop now rest acc
    | .ok (some kd) =>
      let message := format_discord_message (some kd)
      if message.isEmpty then processLinesLoop now rest acc
      else processLinesLoop now rest (acc ++ [message])

/-- Messages produced by one batch of lines, plus an exception flag. -/
def processLines (now : Str) (lines : List Str) : List Str × Bool :=
  processLinesLoop now lines []

/-- `if latest_file and latest_file != filepath: break` (line 435). -/
def wouldSwitch (latest : Option Str) (filepath : Str) : Bool :=
  match latest with
  | some lf => lf != filepath
  | none => false

/-- How one wake of `monitor_single_file` ends. -/
inductive WakeExit where
  /-- fall through to `await asyncio.sleep(1)` and loop again -/
  | continueTailing
  /-- an exception was caught at line 457: sleep 5 and loop again -/
  | errorSleep
  /-- `break` at line 437: a newer file was found -/
  | switchFile
  /-- `break` at lines 448/456: the file disappeared -/
  | fileGone
deriving DecidableEq

/-- Result of one wake of `monitor_single_file`. -/
structure WakeOut where
  pos : Nat
  lines : List Str
  queued : List Str
  exit : WakeExit
deriving DecidableEq

/-- One iteration of the `monitor_single_file` while-loop (lines 395–459)
against a consistent snapshot: `content?` is the file's byte content (`none`
when opening raises `FileNotFoundError`), `pos` the stored read position,
`fileCheckDue` whether the 30-second newer-file check fires this wake,
`latest` what `find_latest_adm_file` would return, and `statOk` whether
`os.path.getsize` succeeds. -/
def monitor_single_file_wake (now : Str) (content? : Option Str) (pos : Nat)
    (fileCheckDue : Bool) (latest : Option Str) (filepath : Str) (statOk : Bool) :
    WakeOut :=
  match content? with
  | none => { pos := pos, lines := [], queued := [], exit := .fileGone }
  | some content =>
    let last_pos := pos
    let new_lines := pyReadLines (content.drop last_pos)
    let new_pos := if last_pos ≤ content.length then content.length else last_pos
    let processed := processLines now new_lines
    if processed.2 then
      { pos := pos, lines := new_lines, queued := processed.1, exit := .errorSleep }
    else
      let pos1 := if new_lines.isEmpty then pos else new_pos
      if fileCheckDue && wouldSwitch latest filepath then
        { pos := pos1, lines := new_lines, queued := processed.1, exit := .switchFile }
      else if !statOk then
        { pos := pos1, lines := new_lines, queued := processed.1, exit := .fileGone }
      else
        let current_size := content.length
        let pos2 := if current_size < last_pos then 0 else pos1
        { pos := pos2, lines := new_lines, queued := processed.1, exit := .continueTailing }

/-- The parser state relevant to file selection: the monitored file and the
`last_position` dict (`get_file_position` defaults to 0). -/
structure MonState where
  current_log_file : Option Str
  last_position : Str → Nat

/-- `set_file_position` (lines 328–330). -/
def set_file_position (st : MonState) (filepath : Str) (position : Nat) : MonState :=
  { st with last_position := fun p => if p = filepath then position else st.last_position p }

/-- The selection/switch step of one `monitor_latest_file` iteration
(lines 345–376): pick the initial file, or switch when a different latest
file appears; in both cases the new file's position starts at its current
size (`os.path.getsize`; 0 if that raises `OSError`). -/
def monitor_latest_file_select (st : MonState) (latest : Option Str)
    (sizeOf : Str → Option Nat) : MonState :=
  match st.current_log_file with
  | none =>
    match latest with
    | none => st
    | some f =>
      set_file_position { st with current_log_file := some f } f ((sizeOf f).getD 0)
  | some c =>
    match latest with
    | some f =>
      if f ≠ c then
        set_file_position { st with current_log_file := some f } f ((sizeOf f).getD 0)
      else st
    | none => st

/-! ## File selector (`parse_adm_timestamp` / `find_latest_adm_file`) -/

/-- Python `datetime` values as far as this program observes them: the six
constructor fields plus microseconds (present on `fromtimestamp` values;
always 0 on parsed ones).  Comparison is field-lexicographic. -/
structure PyDateTime where
  year : Nat
  month : Nat
  day : Nat
  hour : Nat
  minute : Nat
  second : Nat
  microsecond : Nat
deriving DecidableEq

/-- Comparison key of a datetime. -/
def PyDateTime.key (t : PyDateTime) : List Nat :=
  [t.year, t.month, t.day, t.hour, t.minute, t.second, t.microsecond]

/-- Strict lexicographic order on equal-length lists of naturals. -/
def natListLt : List Nat → List Nat → Bool
  | [], [] => false
  | [], _ :: _ => true
  | _ :: _, [] => false
  | a :: as, b :: bs => if a < b then true else if b < a then false else natListLt as bs

/-- Python `a > b` on datetimes. -/
def dtGt (a b : PyDateTime) : Bool := natListLt b.key a.key

/-- Gregorian leap year (as Python `calendar`/`datetime`). -/
def isLeapYear (y : Nat) : Bool := (y % 4 == 0 && y % 100 != 0) || y % 400 == 0

/-- Days in a month, matching `datetime`'s validation. -/
def daysInMonth (y m : Nat) : Nat :=
  if m = 2 then (if isLeapYear y then 29 else 28)
  else if m = 4 || m = 6 || m = 9 || m = 11 then 30
  else 31

/-- The `datetime(year, month, day, hour, minute, second)` constructor:
`none` models the `ValueError` that `parse_adm_timestamp` catches. -/
def datetimeOfYmdHms (y mo d h mi s : Nat) : Option PyDateTime :=
  if 1 ≤ y && y ≤ 9999 && 1 ≤ mo && mo ≤ 12 && 1 ≤ d && d ≤ daysInMonth y mo
      && h ≤ 23 && mi ≤ 59 && s ≤ 59 then
    some ⟨y, mo, d, h, mi, s, 0⟩
  else none

/-- `DayZServer_x64_(\d{4})_(\d{2})_(\d{2})_(\d{2})(\d{2})(\d{2})(\d+)\.ADM` -/
def underscoreAdmToks : List Tok :=
  [.lit "DayZServer_x64_".data, .grpFixed 1 [isDigitB, isDigitB, isDigitB, isDigitB],
   .lit "_".data, .grpFixed 2 [isDigitB, isDigitB], .lit "_".data,
   .grpFixed 3 [isDigitB, isDigitB], .lit "_".data,
   .grpFixed 4 [isDigitB, isDigitB], .grpFixed 5 [isDigitB, isDigitB],
   .grpFixed 6 [isDigitB, isDigitB], .grpPlusG 7 isDigitB, .lit ".ADM".data]

/-- `DayZServer_x64_(\d{4})-(\d{2})-(\d{2})_(\d{2})-(\d{2})-(\d{2})\.ADM` -/
def dashAdmToks : List Tok :=
  [.lit "DayZServer_x64_".data, .grpFixed 1 [isDigitB, isDigitB, isDigitB, isDigitB],
   .lit "-".data, .grpFixed 2 [isDigitB, isDigitB], .lit "-".data,
   .grpFixed 3 [isDigitB, isDigitB], .lit "_".data,
   .grpFixed 4 [isDigitB, isDigitB], .lit "-".data, .grpFixed 5 [isDigitB, isDigitB],
   .lit "-".data, .grpFixed 6 [isDigitB, isDigitB], .lit ".ADM".data]

/-- Build the datetime from the first six captures (`match.groups()[:6]`,
each fed to `int`). -/
def dtFromCaps (caps : Caps) : Option PyDateTime := do
  let y ← caps.lookup 1
  let mo ← caps.lookup 2
  let d ← caps.lookup 3
  let h ← caps.lookup 4
  let mi ← caps.lookup 5
  let s ← caps.lookup 6
  datetimeOfYmdHms (digitsToNat y) (digitsToNat mo) (digitsToNat d)
    (digitsToNat h) (digitsToNat mi) (digitsToNat s)

/-- `parse_adm_timestamp` (lines 84–113): try the underscore convention
(falling through on `ValueError`), then the dash convention. -/
def parse_adm_timestamp (filename : Str) : Option PyDateTime :=
  match (matchToks underscoreAdmToks filename).bind dtFromCaps with
  | some dt => some dt
  | none =>
    match (matchToks dashAdmToks filename).bind dtFromCaps with
    | some dt => some dt
    | none => none

/-- The static filename whose logical timestamp is the mtime (line 154). -/
def STATIC_ADM_NAME : Str := "DayZServer_x64.ADM".data

/-- `os.path.join(log_dir, filename)` (POSIX flavour). -/
def pjoin (dir name : Str) : Str := dir ++ '/' :: name

/-- The candidate collection loop (lines 133–139): `.ADM`-suffixed entries
that still exist, as `(filepath, filename)` pairs. -/
def adm_files_of (log_dir : Str) (entries : List Str) (fileExists : Str → Bool) :
    List (Str × Str) :=
  entries.filterMap fun filename =>
    if List.isSuffixOf ".ADM".data filename && fileExists (pjoin log_dir filename) then
      some (pjoin log_dir filename, filename)
    else none

/-- `latest_timestamp is None or candidate > latest_timestamp`. -/
def noneOrGt : Option PyDateTime → PyDateTime → Bool
  | none, _ => true
  | some lt, ts => dtGt ts lt

/-- One iteration of the latest-file loop (lines 152–167), folding
`(latest_file, latest_timestamp)`. -/
def latestStep (mtime : Str → Option PyDateTime)
    (acc : Option Str × Option PyDateTime) (pr : Str × Str) :
    Option Str × Option PyDateTime :=
  if pr.2 = STATIC_ADM_NAME then
    match mtime pr.1 with
    | some mod_time => if noneOrGt acc.2 mod_time then (some pr.1, some mod_time) else acc
    | none => acc
  else
    match parse_adm_timestamp pr.2 with
    | some timestamp => if noneOrGt acc.2 timestamp then (some pr.1, some timestamp) else acc
    | none => acc

/-- `find_latest_adm_file` (lines 115–172).  `dirOk` is `os.path.exists` on
the directory, `entries?` is `os.listdir` (`none` when it raises `OSError`),
`fileExists` the per-file existence check, `mtime` models
`datetime.fromtimestamp(os.path.getmtime(...))` (`none` when it raises). -/
def find_latest_adm_file (log_dir : Str) (dirOk : Bool) (entries? : Option (List Str))
    (fileExists : Str → Bool) (mtime : Str → Option PyDateTime) : Option Str :=
  if !dirOk then none
  else
    match entries? with
    | none => none
    | some entries =>
      let adm_files := adm_files_of log_dir entries fileExists
      if adm_files.isEmpty then none
      else (adm_files.foldl (latestStep mtime) (none, none)).1

/-! ## Auxiliary definitions used by the statements -/

/-- Structural sanity of a token: a fixed capturing group is built from at
least one character class (true of every pattern above). -/
def Tok.wfTok : Tok → Bool
  | .grpFixed _ ps => !ps.isEmpty
  | _ => true

/-- The capture index a token records, if any. -/
def Tok.groupIdx? : Tok → Option Nat
  | .grpFixed g _ => some g
  | .grpPlusG g _ => some g
  | .grpPlusL g _ => some g
  | _ => none

/-- Does the pattern contain capture group `g`? -/
def hasGroup (toks : List Tok) (g : Nat) : Bool :=
  toks.any fun t => t.groupIdx? == some g

/-- Does the line match at least one of the four kill patterns? -/
def matchesSomeKillPat (line : Str) : Bool :=
  kill_patterns.any fun p => (reSearch p line).isSome

/-- Specification-side one-pass escaper: each of the six reserved characters
is emitted with exactly one backslash in front, every other character is
passed through (the formal counterpart of "escaped by prefixing a backslash,
applied independently per character, without double-escaping"). -/
def escapedOnce (c : Char) : Str :=
  if c ∈ escape_chars then ['\\', c] else [c]

/-- The distance-free part of the Discord message (everything of
`format_discord_message` except `distance_str`). -/
def discordMessageBody (kd : KillData) : Str :=
  "**".data ++ pyStrOfOpt (sanitizeOptPy kd.killer) ++ "** killed **".data
    ++ pyStrOfOpt (sanitizeOptPy kd.victim) ++ "** with ".data
    ++ pyStrOfOpt (if kd.weapon ≠ some "Unknown".data then kd.weapon
                   else some "unknown weapon".data)

/-- The logical timestamp `find_latest_adm_file` associates to a candidate
`(filepath, filename)` pair: mtime for the static name, filename-derived
otherwise. -/
def logicalTs (mtime : Str → Option PyDateTime) (pr : Str × Str) : Option PyDateTime :=
  if pr.2 = STATIC_ADM_NAME then mtime pr.1 else parse_adm_timestamp pr.2

-- Equality on `Except` results is decidable (used by concrete evaluations).
deriving instance DecidableEq for Except

/-- A successful descending scan succeeds at some index below its start. -/
theorem firstSomeDesc_eq_some {α : Type} {f : Nat → Option α} {k : Nat} {y : α}
    (h : firstSomeDesc f k = some y) : ∃ j, j ≤ k ∧ f j = some y := by
  induction k with
  | zero => exact ⟨0, Nat.le_refl 0, h⟩
  | succ k ih =>
    rw [firstSomeDesc] at h
    cases hf : f (k + 1) with
    | some z =>
      rw [hf] at h
      exact ⟨k + 1, Nat.le_refl _, by rw [hf]; exact h⟩
    | none =>
      rw [hf] at h
      obtain ⟨j, hj, hfj⟩ := ih h
      exact ⟨j, Nat.le_succ_of_le hj, hfj⟩

/-- A successful ascending scan succeeds at some index at or above its start. -/
theorem firstSomeAsc_eq_some {α : Type} {f : Nat → Option α} {lo fuel : Nat} {y : α}
    (h : firstSomeAsc f lo fuel = some y) : ∃ j, lo ≤ j ∧ f j = some y := by
  induction fuel generalizing lo with
  | zero => simp [firstSomeAsc] at h
  | succ fuel ih =>
    rw [firstSomeAsc] at h
    cases hf : f lo with
    | some z =>
      rw [hf] at h
      exact ⟨lo, Nat.le_refl _, by rw [hf]; exact h⟩
    | none =>
      rw [hf] at h
      obtain ⟨j, hj, hfj⟩ := ih h
      exact ⟨j, Nat.le_of_succ_le hj, hfj⟩

/-- A fixed class sequence only matches a non-empty string when non-empty. -/
theorem matchClasses_cons_ne_nil {p : Char → Bool} {ps : List (Char → Bool)} {s : Str}
    (h : matchClasses (p :: ps) s = true) : s ≠ [] := by
  cases s with
  | nil => simp [matchClasses] at h
  | cons c cs => simp

/-- Master inversion for one token step: a success consumes a prefix, the
continuation succeeds on the remaining suffix, and the capture list grows by
the token's group (a non-empty slice, for well-formed tokens) or not at all. -/
theorem stepTok_some {t : Tok} {k : Str → Option Caps} {s : Str} {caps : Caps}
    (h : stepTok t k s = some caps) :
    ∃ s' caps', s' <:+ s ∧ k s' = some caps' ∧
      ((t.groupIdx? = none ∧ caps = caps') ∨
       (∃ g cs, t.groupIdx? = some g ∧ caps = (g, cs) :: caps' ∧
          (t.wfTok = true → cs ≠ []))) := by
  cases t with
  | lit l =>
    rw [stepTok] at h
    split at h
    · exact ⟨_, caps, List.drop_suffix _ _, h, Or.inl ⟨rfl, rfl⟩⟩
    · cases h
  | grpFixed g ps =>
    rw [stepTok] at h
    split at h
    · obtain ⟨caps', hk, hcaps⟩ := Option.map_eq_some'.mp h
      refine ⟨_, caps', List.drop_suffix _ _, hk, Or.inr ⟨g, _, rfl, hcaps.symm, ?_⟩⟩
      intro hwf
      cases ps with
      | nil => simp [Tok.wfTok] at hwf
      | cons p pr =>
        have hs := matchClasses_cons_ne_nil (by assumption)
        cases s with
        | nil => exact absurd rfl hs
        | cons c cs => simp [List.take]
    · cases h
  | grpPlusG g p =>
    rw [stepTok] at h
    obtain ⟨j, hj, hfj⟩ := firstSomeDesc_eq_some h
    by_cases hj0 : j = 0
    · rw [hj0] at hfj; simp at hfj
    · rw [if_neg hj0] at hfj
      obtain ⟨caps', hk, hcaps⟩ := Option.map_eq_some'.mp hfj
      refine ⟨_, caps', List.drop_suffix _ _, hk, Or.inr ⟨g, _, rfl, hcaps.symm, ?_⟩⟩
      intro _
      have hsne : s ≠ [] := by
        intro hnil
        rw [hnil] at hj
        simp at hj
        exact hj0 hj
      simp [List.take_eq_nil_iff, hj0, hsne]
  | grpPlusL g p =>
    rw [stepTok] at h
    obtain ⟨j, hj, hfj⟩ := firstSomeAsc_eq_some h
    obtain ⟨caps', hk, hcaps⟩ := Option.map_eq_some'.mp hfj
    refine ⟨_, caps', List.drop_suffix _ _, hk, Or.inr ⟨g, _, rfl, hcaps.symm, ?_⟩⟩
    intro _
    have hsne : s ≠ [] := by
      intro hnil
      rw [hnil] at h
      simp [firstSomeAsc] at h
    have hj0 : j ≠ 0 := by omega
    simp [List.take_eq_nil_iff, hj0, hsne]
  | starG p =>
    rw [stepTok] at h
    obtain ⟨j, _, hfj⟩ := firstSomeDesc_eq_some h
    exact ⟨_, caps, List.drop_suffix _ _, hfj, Or.inl ⟨rfl, rfl⟩⟩
  | optLit l =>
    rw [stepTok] at h
    split at h
    · cases hk : k (List.drop l.length s) with
      | some caps' =>
        rw [hk] at h
        exact ⟨_, caps', List.drop_suffix _ _, hk, Or.inl ⟨rfl, by cases h; rfl⟩⟩
      | none =>
        rw [hk] at h
        exact ⟨s, caps, List.suffix_refl s, h, Or.inl ⟨rfl, rfl⟩⟩
    · exact ⟨s, caps, List.suffix_refl s, h, Or.inl ⟨rfl, rfl⟩⟩
  | wsOrEnd =>
    simp only [stepTok] at h
    cases s with
    | nil =>
      simp only at h
      split at h
      · exact ⟨[], caps, List.suffix_refl _, h, Or.inl ⟨rfl, rfl⟩⟩
      · cases h
    | cons c r =>
      dsimp only at h
      by_cases hsp : isPySpace c = true
      · rw [if_pos hsp] at h
        cases hk : k r with
        | some caps2 =>
          rw [hk] at h
          dsimp only at h
          injection h with h2
          subst h2
          exact ⟨r, caps2, List.suffix_cons c r, hk, Or.inl ⟨rfl, rfl⟩⟩
        | none =>
          rw [hk] at h
          dsimp only at h
          by_cases hend : atEndOfStr (c :: r) = true
          · rw [if_pos hend] at h
            exact ⟨c :: r, caps, List.suffix_refl _, h, Or.inl ⟨rfl, rfl⟩⟩
          · rw [if_neg hend] at h
            cases h
      · rw [if_neg hsp] at h
        dsimp only at h
        by_cases hend : atEndOfStr (c :: r) = true
        · rw [if_pos hend] at h
          exact ⟨c :: r, caps, List.suffix_refl _, h, Or.inl ⟨rfl, rfl⟩⟩
        · rw [if_neg hend] at h
          cases h

/-- A successful whole-pattern match pulls every literal token of the
pattern into the subject string as an infix. -/
theorem matchToks_lit_within {toks : List Tok} {s : Str} {caps : Caps}
    (h : matchToks toks s = some caps) {l : Str} (hmem : Tok.lit l ∈ toks) :
    l <:+: s := by
  induction toks generalizing s caps with
  | nil => cases hmem
  | cons t ts ih =>
    rw [matchToks, List.foldr_cons] at h
    cases hmem with
    | head =>
      rw [stepTok] at h
      split at h
      · exact ( List.isPrefixOf_iff_prefix.mp (by assumption)).isInfix
      · cases h
    | tail _ hmem =>
      obtain ⟨s', caps', hs', hk, _⟩ := stepTok_some h
      exact (ih hk hmem).trans hs'.isInfix

/-- A successful whole-pattern match records a non-empty capture for every
group of a well-formed pattern. -/
theorem matchToks_group_lookup {toks : List Tok} {s : Str} {caps : Caps} {g : Nat}
    (hwf : toks.all Tok.wfTok = true) (h : matchToks toks s = some caps)
    (hg : hasGroup toks g = true) : ∃ cs, caps.lookup g = some cs ∧ cs ≠ [] := by
  induction toks generalizing s caps with
  | nil => simp [hasGroup] at hg
  | cons t ts ih =>
    rw [matchToks, List.foldr_cons] at h
    rw [List.all_cons, Bool.and_eq_true] at hwf
    obtain ⟨s', caps', hs', hk, hdisj⟩ := stepTok_some h
    by_cases hti : t.groupIdx? = some g
    · rcases hdisj with ⟨hnone, _⟩ | ⟨g', cs, hsome, hcaps, hne⟩
      · rw [hti] at hnone; cases hnone
      · rw [hti] at hsome
        injection hsome with hg'
        subst hg'
        subst hcaps
        refine ⟨cs, ?_, hne hwf.1⟩
        simp [List.lookup_cons]
    · have hgts : hasGroup ts g = true := by
        rw [hasGroup, List.any_cons, Bool.or_eq_true] at hg
        rcases hg with hg | hg
        · exact absurd (by simpa using hg) hti
        · exact hg
      rcases hdisj with ⟨_, hcaps⟩ | ⟨g', cs, hsome, hcaps, _⟩
      · subst hcaps
        exact ih hwf.2 hk hgts
      · subst hcaps
        have hgne : (g == g') = false := by
          rw [hsome] at hti
          simp only [beq_eq_false_iff_ne, ne_eq]
          intro hcontra
          exact hti (by rw [hcontra])
        rw [List.lookup_cons, hgne]
        exact ih hwf.2 hk hgts

/-- A successful search is a successful anchored match on some suffix. -/
theorem reSearch_eq_some {toks : List Tok} {s : Str} {caps : Caps}
    (h : reSearch toks s = some caps) :
    ∃ s', s' <:+ s ∧ matchToks toks s' = some caps := by
  induction s with
  | nil =>
    rw [reSearch] at h
    cases hm : matchToks toks [] with
    | some caps' => rw [hm] at h; exact ⟨[], List.suffix_refl _, by rw [hm]; exact h⟩
    | none => rw [hm] at h; cases h
  | cons c rest ih =>
    rw [reSearch] at h
    cases hm : matchToks toks (c :: rest) with
    | some caps' =>
      rw [hm] at h
      exact ⟨c :: rest, List.suffix_refl _, by rw [hm]; exact h⟩
    | none =>
      rw [hm] at h
      obtain ⟨s', hs', hmt⟩ := ih h
      exact ⟨s', hs'.trans (List.suffix_cons c rest), hmt⟩

/-- The Python substring test agrees with the infix relation. -/
theorem containsSub_iff {haystack needle : Str} :
    containsSub haystack needle = true ↔ needle <:+: haystack := by
  induction haystack with
  | nil =>
    rw [containsSub]
    by_cases hp : needle.isPrefixOf [] = true
    · rw [if_pos hp]
      exact ⟨fun _ => ( List.isPrefixOf_iff_prefix.mp hp).isInfix, fun _ => rfl⟩
    · rw [if_neg hp]
      constructor
      · intro hfalse; cases hfalse
      · intro hinf
        rw [List.infix_nil] at hinf
        subst hinf
        simp [List.isPrefixOf] at hp
  | cons c rest ih =>
    rw [containsSub]
    by_cases hp : needle.isPrefixOf (c :: rest) = true
    · rw [if_pos hp]
      exact ⟨fun _ => ( List.isPrefixOf_iff_prefix.mp hp).isInfix, fun _ => rfl⟩
    · rw [if_neg hp]
      rw [ih, List.infix_cons_iff]
      constructor
      · exact Or.inr
      · rintro (hpre | hinf)
        · exact absurd ( List.isPrefixOf_iff_prefix.mpr hpre) hp
        · exact hinf

/-- A first match comes from a member pattern. -/
theorem findFirstMatch_mem {pats : List (List Tok)} {line : Str} {p : List Tok} {caps : Caps}
    (h : findFirstMatch pats line = some (p, caps)) :
    p ∈ pats ∧ reSearch p line = some caps := by
  induction pats with
  | nil => cases h
  | cons q qs ih =>
    rw [findFirstMatch] at h
    cases hq : reSearch q line with
    | some caps' =>
      rw [hq] at h
      injection h with h2
      injection h2 with hp hc
      subst hp
      subst hc
      exact ⟨List.mem_cons_self q qs, hq⟩
    | none =>
      rw [hq] at h
      obtain ⟨hmem, hs⟩ := ih h
      exact ⟨List.mem_cons_of_mem q hmem, hs⟩

/-- The pattern loop fails exactly when every pattern fails. -/
theorem findFirstMatch_eq_none {pats : List (List Tok)} {line : Str} :
    findFirstMatch pats line = none ↔ ∀ p ∈ pats, reSearch p line = none := by
  induction pats with
  | nil => simp [findFirstMatch]
  | cons q qs ih =>
    rw [findFirstMatch]
    cases hq : reSearch q line with
    | some caps' =>
      simp only [List.mem_cons]
      constructor
      · intro hfalse; cases hfalse
      · intro hall
        have := hall q (Or.inl rfl)
        rw [hq] at this
        cases this
    | none =>
      rw [ih]
      constructor
      · intro hall p hp
        rcases List.mem_cons.mp hp with hp | hp
        · subst hp; exact hq
        · exact hall p hp
      · intro hall p hp
        exact hall p (List.mem_cons_of_mem q hp)

/-- Every kill pattern embeds one of the two canonical PvP phrases as a
literal token, so a successful search implies the phrase gate passes. -/
theorem killPat_match_phrase {p : List Tok} {line : Str} {caps : Caps}
    (hp : p ∈ kill_patterns) (h : reSearch p line = some caps) :
    containsPvpPhrase line = true := by
  obtain ⟨s', hs', hmt⟩ := reSearch_eq_some h
  have hmem : p = killPat1 ∨ p = killPat2 ∨ p = killPat3 ∨ p = killPat4 := by
    simpa [kill_patterns] using hp
  have inf1 : p = killPat1 ∨ p = killPat2 → pvpPhrase1 <:+: s' := by
    intro hcase
    have hlit : Tok.lit "killed by Player \"".data ∈ p := by
      rcases hcase with hcase | hcase <;> subst hcase <;> simp [killPat1, killPat2]
    have hpre : pvpPhrase1 <+: "killed by Player \"".data :=
      List.isPrefixOf_iff_prefix.mp (by decide)
    exact hpre.isInfix.trans (matchToks_lit_within hmt hlit)
  have inf2 : p = killPat3 ∨ p = killPat4 → pvpPhrase2 <:+: s' := by
    intro hcase
    have hlit : Tok.lit "has been killed by player \"".data ∈ p := by
      rcases hcase with hcase | hcase <;> subst hcase <;> simp [killPat3, killPat4]
    have hpre : pvpPhrase2 <+: "has been killed by player \"".data :=
      List.isPrefixOf_iff_prefix.mp (by decide)
    exact hpre.isInfix.trans (matchToks_lit_within hmt hlit)
  rw [containsPvpPhrase, Bool.or_eq_true]
  rcases hmem with hc | hc | hc | hc
  · exact Or.inl (containsSub_iff.mpr ((inf1 (Or.inl hc)).trans hs'.isInfix))
  · exact Or.inl (containsSub_iff.mpr ((inf1 (Or.inr hc)).trans hs'.isInfix))
  · exact Or.inr (containsSub_iff.mpr ((inf2 (Or.inl hc)).trans hs'.isInfix))
  · exact Or.inr (containsSub_iff.mpr ((inf2 (Or.inr hc)).trans hs'.isInfix))

/-- The distance computation raises exactly when the pattern has a fifth
group whose (non-empty) capture fails float parsing. -/
theorem killDistanceRes_error_iff (caps : Caps) (pat : List Tok) :
    killDistanceRes caps pat = .error .valueError ↔
      4 < countGroups pat
      ∧ ∃ d, caps.lookup 5 = some d ∧ d ≠ [] ∧ pyFloatOfDigitsDots d = none := by
  rw [killDistanceRes]
  by_cases h45 : 4 < countGroups pat
  · rw [if_pos h45]
    cases hl : caps.lookup 5 with
    | none =>
      dsimp only
      constructor
      · intro h; cases h
      · rintro ⟨-, d, hd, -, -⟩
        cases hd
    | some d =>
      dsimp only
      by_cases hde : d.isEmpty = true
      · rw [if_pos hde]
        constructor
        · intro h; cases h
        · rintro ⟨-, d', hd', hne, -⟩
          injection hd' with hd'
          subst hd'
          rw [List.isEmpty_iff] at hde
          exact absurd hde hne
      · rw [if_neg hde]
        cases hf : pyFloatOfDigitsDots d with
        | some q =>
          dsimp only
          constructor
          · intro h; cases h
          · rintro ⟨-, d', hd', -, hfn⟩
            injection hd' with hd'
            subst hd'
            rw [hf] at hfn
            cases hfn
        | none =>
          dsimp only
          constructor
          · intro _
            refine ⟨h45, d, rfl, ?_, hf⟩
            intro hnil
            rw [hnil] at hde
            exact hde rfl
          · intro _
            rfl
  · rw [if_neg h45]
    constructor
    · intro h; cases h
    · rintro ⟨h45', -⟩
      exact absurd h45' h45

/-- On any line whose first matching pattern exists, extraction propagates
the distance computation: it raises exactly the distance `ValueError`, and
on a successful distance it returns a record with non-empty killer and
victim captures. -/
theorem parse_kill_event_first_match {now line : Str} {p : List Tok} {caps : Caps}
    (hm : findFirstMatch kill_patterns line = some (p, caps)) :
    (killDistanceRes caps p = .error .valueError →
        parse_kill_event now line = .error .valueError)
    ∧ (∀ q : ℚ, killDistanceRes caps p = .ok q →
        ∃ kd, parse_kill_event now line = .ok (some kd)
          ∧ (∃ ks, kd.killer = some ks ∧ ks ≠ []) ∧ (∃ vs, kd.victim = some vs ∧ vs ≠ [])) := by
  obtain ⟨hpmem, hsearch⟩ := findFirstMatch_mem hm
  have hph := killPat_match_phrase hpmem hsearch
  obtain ⟨s', hs', hmt⟩ := reSearch_eq_some hsearch
  have hmem4 : p = killPat1 ∨ p = killPat2 ∨ p = killPat3 ∨ p = killPat4 := by
    simpa [kill_patterns] using hpmem
  have hwf : p.all Tok.wfTok = true := by
    rcases hmem4 with hc | hc | hc | hc <;> subst hc <;> decide
  have h2 : hasGroup p 2 = true := by
    rcases hmem4 with hc | hc | hc | hc <;> subst hc <;> decide
  have h3 : hasGroup p 3 = true := by
    rcases hmem4 with hc | hc | hc | hc <;> subst hc <;> decide
  have hn : 4 ≤ countGroups p := by
    rcases hmem4 with hc | hc | hc | hc <;> subst hc <;> decide
  obtain ⟨vs, hvs, hvsne⟩ := matchToks_group_lookup hwf hmt h2
  obtain ⟨ks, hks, hksne⟩ := matchToks_group_lookup hwf hmt h3
  rw [parse_kill_event, hm]
  simp only [extract_kill_data, hph]
  simp only [Bool.not_true, Bool.false_eq_true, if_false]
  rw [if_pos hn]
  constructor
  · intro herr
    rw [herr]
  · intro q hok
    rw [hok]
    exact ⟨_, rfl, ⟨ks, hks, hksne⟩, ⟨vs, hvs, hvsne⟩⟩

/-- A line matching no pattern parses to `None`. -/
theorem parse_kill_event_no_match {now line : Str}
    (h : matchesSomeKillPat line = false) : parse_kill_event now line = .ok none := by
  rw [parse_kill_event]
  cases hm : findFirstMatch kill_patterns line with
  | none => rfl
  | some pc =>
    obtain ⟨p, caps⟩ := pc
    obtain ⟨hpmem, hsearch⟩ := findFirstMatch_mem hm
    rw [matchesSomeKillPat] at h
    have : (reSearch p line).isSome = true := by rw [hsearch]; rfl
    rw [List.any_eq_false] at h
    exact absurd this (by simpa using h p hpmem)

/-- A successful first match makes `matchesSomeKillPat` true. -/
theorem matchesSome_of_findFirstMatch {line : Str} {p : List Tok} {caps : Caps}
    (hm : findFirstMatch kill_patterns line = some (p, caps)) :
    matchesSomeKillPat line = true := by
  obtain ⟨hpmem, hsearch⟩ := findFirstMatch_mem hm
  rw [matchesSomeKillPat, List.any_eq_true]
  exact ⟨p, hpmem, by rw [hsearch]; rfl⟩

/-- If any pattern matches, the loop finds a first match. -/
theorem findFirstMatch_isSome_of_matchesSome {line : Str}
    (h : matchesSomeKillPat line = true) :
    ∃ p caps, findFirstMatch kill_patterns line = some (p, caps) := by
  cases hm : findFirstMatch kill_patterns line with
  | some pc =>
    obtain ⟨p, caps⟩ := pc
    exact ⟨p, caps, rfl⟩
  | none =>
    rw [matchesSomeKillPat, List.any_eq_true] at h
    obtain ⟨p, hpmem, hsome⟩ := h
    have := findFirstMatch_eq_none.mp hm p hpmem
    rw [this] at hsome
    cases hsome

/-- Single-character replacement distributes over concatenation. -/
theorem pyReplaceChar_append (a b : Str) (old : Char) (rep : Str) :
    pyReplaceChar (a ++ b) old rep = pyReplaceChar a old rep ++ pyReplaceChar b old rep := by
  simp [pyReplaceChar]

/-- The six-replacement chain distributes over concatenation. -/
theorem sanitize_foldl_append (chs : List Char) (a b : Str) :
    chs.foldl (fun sanitized ch => pyReplaceChar sanitized ch ['\\', ch]) (a ++ b)
    = chs.foldl (fun sanitized ch => pyReplaceChar sanitized ch ['\\', ch]) a
      ++ chs.foldl (fun sanitized ch => pyReplaceChar sanitized ch ['\\', ch]) b := by
  induction chs generalizing a b with
  | nil => rfl
  | cons ch chs ih =>
    simp only [List.foldl_cons]
    rw [pyReplaceChar_append]
    exact ih _ _

/-- On a single character the chain produces exactly the one-pass escape. -/
theorem sanitize_foldl_single (c : Char) :
    escape_chars.foldl (fun sanitized ch => pyReplaceChar sanitized ch ['\\', ch]) [c]
    = escapedOnce c := by
  by_cases h1 : c = '\\'
  · subst h1; decide
  · by_cases h2 : c = '*'
    · subst h2; decide
    · by_cases h3 : c = '_'
      · subst h3; decide
      · by_cases h4 : c = '\x60'
        · subst h4; decide
        · by_cases h5 : c = '~'
          · subst h5; decide
          · by_cases h6 : c = '|'
            · subst h6; decide
            · simp [escape_chars, escapedOnce, pyReplaceChar, h1, h2, h3, h4, h5, h6]

/-- The replacement chain is the one-pass escape, character by character. -/
theorem sanitize_foldl_eq_flatMap (text : Str) :
    escape_chars.foldl (fun sanitized ch => pyReplaceChar sanitized ch ['\\', ch]) text
    = text.flatMap escapedOnce := by
  induction text with
  | nil => rfl
  | cons c cs ih =>
    have hsplit : c :: cs = [c] ++ cs := rfl
    rw [hsplit, sanitize_foldl_append, ih, sanitize_foldl_single]
    rfl

/-- Claim C1 (amended): every line matching a kill pattern has a first
match, whose line passes the phrase gate; extraction then raises
`ValueError` exactly when the matched pattern's distance capture (group 5,
present and non-empty) fails float parsing (the C2 bug), and otherwise
returns a record with non-empty killer and victim captures; every line
without phrase-and-match parses to `None`. -/
theorem C1_extraction_dichotomy (now line : Str) :
    (matchesSomeKillPat line = true →
      ∃ p caps, findFirstMatch kill_patterns line = some (p, caps))
    ∧ (∀ (p : List Tok) (caps : Caps), findFirstMatch kill_patterns line = some (p, caps) →
        containsPvpPhrase line = true ∧ matchesSomeKillPat line = true
        ∧ (killDistanceRes caps p = .error .valueError ↔
            4 < countGroups p
            ∧ ∃ d, caps.lookup 5 = some d ∧ d ≠ [] ∧ pyFloatOfDigitsDots d = none)
        ∧ (killDistanceRes caps p = .error .valueError →
            parse_kill_event now line = .error .valueError)
        ∧ (∀ q : ℚ, killDistanceRes caps p = .ok q →
            ∃ kd, parse_kill_event now line = .ok (some kd)
              ∧ (∃ ks, kd.killer = some ks ∧ ks ≠ [])
              ∧ (∃ vs, kd.victim = some vs ∧ vs ≠ [])))
    ∧ (¬(containsPvpPhrase line = true ∧ matchesSomeKillPat line = true) →
      parse_kill_event now line = .ok none) := by
  refine ⟨findFirstMatch_isSome_of_matchesSome, ?_, ?_⟩
  · intro p caps hm
    obtain ⟨hpmem, hsearch⟩ := findFirstMatch_mem hm
    exact ⟨killPat_match_phrase hpmem hsearch, matchesSome_of_findFirstMatch hm,
      killDistanceRes_error_iff caps p, (parse_kill_event_first_match hm).1,
      (parse_kill_event_first_match hm).2⟩
  · intro hnot
    cases hms : matchesSomeKillPat line with
    | false => exact parse_kill_event_no_match hms
    | true =>
      obtain ⟨p, caps, hm⟩ := findFirstMatch_isSome_of_matchesSome hms
      obtain ⟨hpmem, hsearch⟩ := findFirstMatch_mem hm
      exact absurd ⟨killPat_match_phrase hpmem hsearch, hms⟩ hnot

/-- Claim C1, counterexample to the claim as stated: this line contains the
phrase `killed by Player` and matches kill pattern 1, yet extraction does
not return a record — `float("1.2.3")` raises `ValueError`. -/
theorem C1_counterexample :
    containsPvpPhrase "12:10:00 | Player \"Victim\" killed by Player \"Hunter\" with axe from 1.2.3 meters".data = true
    ∧ matchesSomeKillPat "12:10:00 | Player \"Victim\" killed by Player \"Hunter\" with axe from 1.2.3 meters".data = true
    ∧ parse_kill_event [] "12:10:00 | Player \"Victim\" killed by Player \"Hunter\" with axe from 1.2.3 meters".data
      = .error .valueError := by
  exact ⟨by decide, by decide, by decide⟩

/-- Claim C1, witness: the record branch of the amended theorem at a
well-formed line (first match is pattern 1 with distance capture `123`),
and the error branch at a line whose distance capture `1.2.3` fails float
parsing. -/
theorem C1_witness :
    (∃ kd, parse_kill_event []
          "14:32:10 | Player \"Bob\" killed by Player \"Alice\" with AK74 from 123 meters".data
        = .ok (some kd)
        ∧ (∃ ks, kd.killer = some ks ∧ ks ≠ []) ∧ (∃ vs, kd.victim = some vs ∧ vs ≠ []))
    ∧ parse_kill_event []
        "12:10:00 | Player \"Victim\" killed by Player \"Hunter\" with axe from 1.2.3 meters".data
      = .error .valueError :=
  ⟨((C1_extraction_dichotomy []
        "14:32:10 | Player \"Bob\" killed by Player \"Alice\" with AK74 from 123 meters".data).2.1
      killPat1
      [(1, "14:32:10".data), (2, "Bob".data), (3, "Alice".data),
       (4, "AK74".data), (5, "123".data)]
      (by rfl)).2.2.2.2 123 (by decide),
   ((C1_extraction_dichotomy []
        "12:10:00 | Player \"Victim\" killed by Player \"Hunter\" with axe from 1.2.3 meters".data).2.1
      killPat1
      [(1, "12:10:00".data), (2, "Victim".data), (3, "Hunter".data),
       (4, "axe".data), (5, "1.2.3".data)]
      (by rfl)).2.2.2.1 (by decide)⟩

/-- Claim C2: the code violates it.  On a pattern-matching line whose
distance capture `"7..5"` is accepted by `[\d.]+` but rejected by `float`,
`extract_kill_data` raises `ValueError` instead of producing a record with
distance 0 — contradicting the spec's "record is still produced with
distance 0 rather than raising". -/
theorem C2_malformed_distance_raises :
    matchesSomeKillPat "09:01:02 | Player \"prey\" killed by Player \"shooter\" with gun from 7..5 meters".data = true
    ∧ parse_kill_event [] "09:01:02 | Player \"prey\" killed by Player \"shooter\" with gun from 7..5 meters".data
      = .error .valueError := by
  exact ⟨by decide, by decide⟩

/-- Claim C3: sanitization equals the one-pass escaper that prefixes every
reserved character with exactly one backslash and leaves everything else
alone — in particular no character is double-escaped, because the escaping
backslashes the chain inserts are never themselves re-escaped. -/
theorem C3_sanitize_escapes_once (text : Str) :
    sanitize_discord_text text = text.flatMap escapedOnce := by
  rw [sanitize_discord_text]
  by_cases he : text.isEmpty = true
  · rw [if_pos he]
    rw [List.isEmpty_iff] at he
    subst he
    rfl
  · rw [if_neg he]
    exact sanitize_foldl_eq_flatMap text

/-- Claim C4: formatting is total by construction, returns the empty string
exactly for the missing record, omits the distance suffix at distance 0, and
appends " (Nm)" (N the half-even-rounded distance) for positive distance. -/
theorem C4_format_message :
    format_discord_message none = []
    ∧ (∀ kd : KillData, kd.distance = 0 →
        format_discord_message (some kd) = discordMessageBody kd)
    ∧ (∀ kd : KillData, 0 < kd.distance →
        format_discord_message (some kd)
        = discordMessageBody kd
          ++ (" (".data ++ intDigits (pyRoundHalfEven kd.distance) ++ "m)".data)) := by
  refine ⟨rfl, ?_, ?_⟩
  · intro kd hd
    simp [format_discord_message, discordMessageBody, hd]
  · intro kd hd
    simp [format_discord_message, discordMessageBody, if_pos hd, List.append_assoc]

/-- Claim C4, witness at distance 0 and at distance 5. -/
theorem C4_witness :
    format_discord_message
        (some (⟨[], some "v".data, some "k".data, some "w".data, 0, []⟩ : KillData))
      = discordMessageBody (⟨[], some "v".data, some "k".data, some "w".data, 0, []⟩ : KillData)
    ∧ format_discord_message
        (some (⟨[], some "v".data, some "k".data, some "w".data, 5, []⟩ : KillData))
      = discordMessageBody (⟨[], some "v".data, some "k".data, some "w".data, 5, []⟩ : KillData)
        ++ (" (".data ++ intDigits (pyRoundHalfEven 5) ++ "m)".data) :=
  ⟨C4_format_message.2.1 _ rfl, C4_format_message.2.2 _ (by decide)⟩

/-- The partition loop is an accumulator-threaded filter pair. -/
theorem drainPartitionLoop_spec (q : List QMsg) (now : ℤ) (a : List Str) (b : List QMsg) :
    q.foldl
      (fun acc m =>
        if m.sendAfter ≤ now then (acc.1 ++ [m.text], acc.2) else (acc.1, acc.2 ++ [m]))
      (a, b)
    = (a ++ (q.filter (fun m => m.sendAfter ≤ now)).map (fun m => m.text),
       b ++ q.filter (fun m => ¬ m.sendAfter ≤ now)) := by
  induction q generalizing a b with
  | nil => simp
  | cons m ms ih =>
    simp only [List.foldl_cons]
    by_cases h : m.sendAfter ≤ now
    · rw [if_pos h, ih]
      simp [h, List.filter_cons, List.append_assoc]
    · rw [if_neg h, ih]
      have h2 : now < m.sendAfter := not_le.mp h
      simp [h, h2, List.filter_cons, List.append_assoc]

/-- Claim C6: one drain cycle partitions the queue by `now >= send_after`;
each due message is attempted exactly once, in order, whatever `send`
returns, and the new queue is exactly the not-yet-due messages. -/
theorem C6_drain_cycle (q : List QMsg) (now : ℤ) (send : Str → Bool) :
    (process_message_queue_cycle q now send).1
      = (q.filter (fun m => m.sendAfter ≤ now)).map (fun m => (m.text, send m.text))
    ∧ (process_message_queue_cycle q now send).2
      = q.filter (fun m => ¬ m.sendAfter ≤ now) := by
  constructor
  · rw [process_message_queue_cycle, drainPartitionLoop, drainPartitionLoop_spec]
    simp [List.map_map]
  · rw [process_message_queue_cycle, drainPartitionLoop, drainPartitionLoop_spec]
    simp

/-- Claim C5: a freshly queued message is delivered by the shutdown flush
(whatever the delay) leaving the queue empty, while a drain cycle before the
delay elapses attempts nothing and leaves the message pending. -/
theorem C5_flush_vs_early_drain (msg : Str) (now t : ℤ) (send : Str → Bool)
    (hmsg : msg ≠ []) (ht : t < now + DELAY_BEFORE_SEND) :
    (graceful_shutdown_flush (queue_message [] now msg) send).1 = [(msg, send msg)]
    ∧ (graceful_shutdown_flush (queue_message [] now msg) send).2 = []
    ∧ (process_message_queue_cycle (queue_message [] now msg) t send).1 = []
    ∧ (process_message_queue_cycle (queue_message [] now msg) t send).2
      = queue_message [] now msg := by
  have hne : msg.isEmpty = false := by
    cases msg with
    | nil => exact absurd rfl hmsg
    | cons c cs => rfl
  have hq : queue_message [] now msg = [⟨msg, now + DELAY_BEFORE_SEND⟩] := by
    rw [queue_message, hne]
    rfl
  have hnotdue : ¬ (now + DELAY_BEFORE_SEND ≤ t) := not_le.mpr ht
  refine ⟨?_, ?_, ?_, ?_⟩
  · rw [hq]; rfl
  · rw [hq]; rfl
  · rw [hq, process_message_queue_cycle, drainPartitionLoop, drainPartitionLoop_spec]
    simp [List.filter_cons, hnotdue]
  · rw [hq, process_message_queue_cycle, drainPartitionLoop, drainPartitionLoop_spec]
    simp [List.filter_cons, hnotdue, not_le.mp hnotdue]

/-- Claim C5, witness at concrete values. -/
theorem C5_witness :
    (graceful_shutdown_flush (queue_message [] 0 "hi".data) (fun _ => true)).1
      = [("hi".data, true)]
    ∧ (graceful_shutdown_flush (queue_message [] 0 "hi".data) (fun _ => true)).2 = []
    ∧ (process_message_queue_cycle (queue_message [] 0 "hi".data) 0 (fun _ => true)).1 = []
    ∧ (process_message_queue_cycle (queue_message [] 0 "hi".data) 0 (fun _ => true)).2
      = queue_message [] 0 "hi".data :=
  C5_flush_vs_early_drain "hi".data 0 0 (fun _ => true) (by decide) (by decide)

/-- Claim C7: when a wake that reaches the size check observes the file
smaller than the stored position, the position is reset to 0 and the loop
stays on the same path; a following wake from position 0 reads the whole
content again. -/
theorem C7_rotation_resets_position (now content : Str) (pos : Nat)
    (fileCheckDue : Bool) (latest : Option Str) (filepath : Str)
    (hshrunk : content.length < pos)
    (hnoswitch : (fileCheckDue && wouldSwitch latest filepath) = false) :
    (monitor_single_file_wake now (some content) pos fileCheckDue latest filepath true).pos = 0
    ∧ (monitor_single_file_wake now (some content) pos fileCheckDue latest filepath true).exit
      = .continueTailing
    ∧ (monitor_single_file_wake now (some content) 0 false none filepath true).lines
      = pyReadLines content := by
  have hdrop : content.drop pos = [] :=
    List.drop_eq_nil_of_le (Nat.le_of_lt hshrunk)
  refine ⟨?_, ?_, ?_⟩
  · simp only [monitor_single_file_wake, hdrop]
    rw [hnoswitch]
    simp [processLines, processLinesLoop, pyReadLines, pyReadLinesAux, hshrunk]
  · simp only [monitor_single_file_wake, hdrop]
    rw [hnoswitch]
    simp [processLines, processLinesLoop, pyReadLines, pyReadLinesAux, hshrunk]
  · simp only [monitor_single_file_wake, List.drop_zero, wouldSwitch, Bool.and_false,
      Bool.false_and]
    split <;> rfl

/-- Claim C7, witness: a 3-byte file with stored position 10. -/
theorem C7_witness :
    (monitor_single_file_wake [] (some "ab\n".data) 10 false none "f".data true).pos = 0
    ∧ (monitor_single_file_wake [] (some "ab\n".data) 10 false none "f".data true).exit
      = .continueTailing
    ∧ (monitor_single_file_wake [] (some "ab\n".data) 0 false none "f".data true).lines
      = pyReadLines "ab\n".data :=
  C7_rotation_resets_position [] "ab\n".data 10 false none "f".data (by decide) (by decide)

/-- Claim C8: both on initial selection and on a switch to a different
latest file, the new file's stored position is initialized to its current
size. -/
theorem C8_position_starts_at_eof (st : MonState) (latest : Option Str) (f : Str)
    (n : Nat) (sizeOf : Str → Option Nat) (hsz : sizeOf f = some n) :
    (st.current_log_file = none → latest = some f →
      (monitor_latest_file_select st latest sizeOf).current_log_file = some f
      ∧ (monitor_latest_file_select st latest sizeOf).last_position f = n)
    ∧ (∀ c, st.current_log_file = some c → latest = some f → f ≠ c →
      (monitor_latest_file_select st latest sizeOf).current_log_file = some f
      ∧ (monitor_latest_file_select st latest sizeOf).last_position f = n) := by
  constructor
  · intro hcur hlat
    rw [monitor_latest_file_select.eq_def, hcur, hlat]
    dsimp only
    rw [hsz]
    simp [set_file_position]
  · intro c hcur hlat hne
    rw [monitor_latest_file_select.eq_def, hcur, hlat]
    dsimp only
    rw [if_pos hne, hsz]
    simp [set_file_position]

/-- Claim C8, witness: a fresh 1000-byte file. -/
theorem C8_witness :
    (monitor_latest_file_select ⟨none, fun _ => 0⟩ (some "logs/a.ADM".data)
        (fun _ => some 1000)).current_log_file = some "logs/a.ADM".data
    ∧ (monitor_latest_file_select ⟨none, fun _ => 0⟩ (some "logs/a.ADM".data)
        (fun _ => some 1000)).last_position "logs/a.ADM".data = 1000 :=
  (C8_position_starts_at_eof ⟨none, fun _ => 0⟩ _ _ 1000 _ rfl).1 rfl rfl

/-- Lexicographic comparison is irreflexive. -/
theorem natListLt_irrefl (a : List Nat) : natListLt a a = false := by
  induction a with
  | nil => rfl
  | cons x xs ih =>
    rw [natListLt]
    rw [if_neg (lt_irrefl x), if_neg (lt_irrefl x)]
    exact ih

/-- Lexicographic comparison is transitive. -/
theorem natListLt_trans {a : List Nat} : ∀ {b c : List Nat},
    natListLt a b = true → natListLt b c = true → natListLt a c = true := by
  induction a with
  | nil =>
    intro b c hab hbc
    cases b with
    | nil => cases hab
    | cons y ys =>
      cases c with
      | nil => cases hbc
      | cons z zs => rfl
  | cons x xs ih =>
    intro b c hab hbc
    cases b with
    | nil => cases hab
    | cons y ys =>
      cases c with
      | nil => cases hbc
      | cons z zs =>
        rw [natListLt] at hab hbc ⊢
        by_cases hxy : x < y
        · by_cases hyz : y < z
          · rw [if_pos (by omega : x < z)]
          · rw [if_neg hyz] at hbc
            by_cases hzy : z < y
            · rw [if_pos hzy] at hbc; cases hbc
            · rw [if_pos (by omega : x < z)]
        · rw [if_neg hxy] at hab
          by_cases hyx : y < x
          · rw [if_pos hyx] at hab; cases hab
          · rw [if_neg hyx] at hab
            by_cases hyz : y < z
            · rw [if_pos (by omega : x < z)]
            · rw [if_neg hyz] at hbc
              by_cases hzy : z < y
              · rw [if_pos hzy] at hbc; cases hbc
              · rw [if_neg hzy] at hbc
                rw [if_neg (by omega : ¬ x < z), if_neg (by omega : ¬ z < x)]
                exact ih hab hbc

/-- `latestStep` in terms of the candidate's logical timestamp. -/
theorem latestStep_eq (mtime : Str → Option PyDateTime)
    (acc : Option Str × Option PyDateTime) (pr : Str × Str) :
    latestStep mtime acc pr
    = match logicalTs mtime pr with
      | some ts => if noneOrGt acc.2 ts then (some pr.1, some ts) else acc
      | none => acc := by
  rw [latestStep, logicalTs]
  by_cases hstat : pr.2 = STATIC_ADM_NAME
  · rw [if_pos hstat, if_pos hstat]
  · rw [if_neg hstat, if_neg hstat]

/-- One fold step preserves the latest-file invariant: the accumulator is
either still empty with no candidate timestamped so far, or holds a
candidate whose timestamp no processed candidate strictly exceeds. -/
theorem latestStep_preserves (mtime : Str → Option PyDateTime)
    (acc : Option Str × Option PyDateTime) (processed : List (Str × Str)) (pr : Str × Str)
    (h : (acc = (none, none) ∧ ∀ pr' ∈ processed, logicalTs mtime pr' = none)
       ∨ (∃ fp ts pr0, acc = (some fp, some ts) ∧ pr0 ∈ processed ∧ pr0.1 = fp
           ∧ logicalTs mtime pr0 = some ts
           ∧ ∀ pr' ∈ processed, ∀ u, logicalTs mtime pr' = some u → dtGt u ts = false)) :
    (latestStep mtime acc pr = (none, none)
        ∧ ∀ pr' ∈ processed ++ [pr], logicalTs mtime pr' = none)
    ∨ (∃ fp ts pr0, latestStep mtime acc pr = (some fp, some ts) ∧ pr0 ∈ processed ++ [pr]
        ∧ pr0.1 = fp ∧ logicalTs mtime pr0 = some ts
        ∧ ∀ pr' ∈ processed ++ [pr], ∀ u, logicalTs mtime pr' = some u → dtGt u ts = false) := by
  rw [latestStep_eq]
  cases hl : logicalTs mtime pr with
  | none =>
    rcases h with ⟨hacc, hall⟩ | ⟨fp, ts, pr0, hacc, hmem, hfp, hts, hdom⟩
    · refine Or.inl ⟨by rw [hacc], ?_⟩
      intro pr' hmem
      rcases List.mem_append.mp hmem with hmem | hmem
      · exact hall pr' hmem
      · rw [List.mem_singleton] at hmem; subst hmem; exact hl
    · refine Or.inr ⟨fp, ts, pr0, by rw [hacc], List.mem_append_left _ hmem, hfp, hts, ?_⟩
      intro pr' hmem' u hu
      rcases List.mem_append.mp hmem' with hmem' | hmem'
      · exact hdom pr' hmem' u hu
      · rw [List.mem_singleton] at hmem'; subst hmem'
        rw [hl] at hu; cases hu
  | some cand =>
    dsimp only
    by_cases hup : noneOrGt acc.2 cand = true
    · rw [if_pos hup]
      refine Or.inr ⟨pr.1, cand, pr, rfl, List.mem_append_right _ (List.mem_singleton.mpr rfl),
        rfl, hl, ?_⟩
      intro pr' hmem' u hu
      rcases List.mem_append.mp hmem' with hmem' | hmem'
      · rcases h with ⟨hacc, hall⟩ | ⟨fp, ts, pr0, hacc, hmem, hfp, hts, hdom⟩
        · rw [hall pr' hmem'] at hu; cases hu
        · have hts_lt : dtGt cand ts = true := by rw [hacc] at hup; exact hup
          have hu_ndom : dtGt u ts = false := hdom pr' hmem' u hu
          cases hcontra : dtGt u cand with
          | false => rfl
          | true =>
            have htrans : dtGt u ts = true := natListLt_trans hts_lt hcontra
            rw [htrans] at hu_ndom; cases hu_ndom
      · rw [List.mem_singleton] at hmem'; subst hmem'
        rw [hl] at hu
        injection hu with hu
        subst hu
        exact natListLt_irrefl _
    · rw [if_neg hup]
      rcases h with ⟨hacc, hall⟩ | ⟨fp, ts, pr0, hacc, hmem, hfp, hts, hdom⟩
      · rw [hacc] at hup
        exact absurd rfl hup
      · refine Or.inr ⟨fp, ts, pr0, by rw [hacc], List.mem_append_left _ hmem, hfp, hts, ?_⟩
        intro pr' hmem' u hu
        rcases List.mem_append.mp hmem' with hmem' | hmem'
        · exact hdom pr' hmem' u hu
        · rw [List.mem_singleton] at hmem'; subst hmem'
          rw [hl] at hu
          injection hu with hu
          subst hu
          rw [hacc] at hup
          cases hdg : dtGt cand ts with
          | false => rfl
          | true => exact absurd hdg hup

/-- Folding `latestStep` maintains the latest-file invariant over the whole
candidate list. -/
theorem latestStep_foldl_spec (mtime : Str → Option PyDateTime) (prs : List (Str × Str)) :
    ∀ (acc : Option Str × Option PyDateTime) (processed : List (Str × Str)),
    ((acc = (none, none) ∧ ∀ pr' ∈ processed, logicalTs mtime pr' = none)
     ∨ (∃ fp ts pr0, acc = (some fp, some ts) ∧ pr0 ∈ processed ∧ pr0.1 = fp
         ∧ logicalTs mtime pr0 = some ts
         ∧ ∀ pr' ∈ processed, ∀ u, logicalTs mtime pr' = some u → dtGt u ts = false)) →
    ((prs.foldl (latestStep mtime) acc = (none, none)
        ∧ ∀ pr' ∈ processed ++ prs, logicalTs mtime pr' = none)
     ∨ (∃ fp ts pr0, prs.foldl (latestStep mtime) acc = (some fp, some ts)
         ∧ pr0 ∈ processed ++ prs ∧ pr0.1 = fp ∧ logicalTs mtime pr0 = some ts
         ∧ ∀ pr' ∈ processed ++ prs, ∀ u, logicalTs mtime pr' = some u → dtGt u ts = false)) := by
  induction prs with
  | nil =>
    intro acc processed h
    simpa using h
  | cons pr prs ih =>
    intro acc processed h
    rw [List.foldl_cons]
    have hstep := latestStep_preserves mtime acc processed pr h
    have hres := ih (latestStep mtime acc pr) (processed ++ [pr]) hstep
    simpa [List.append_assoc] using hres

/-- A successful selection is a candidate whose logical timestamp no other
candidate strictly exceeds. -/
theorem find_latest_some_spec {log_dir : Str} {es : List Str} {fe : Str → Bool}
    {mt : Str → Option PyDateTime} {fp : Str}
    (hfp : find_latest_adm_file log_dir true (some es) fe mt = some fp) :
    ∃ pr0 ts, pr0 ∈ adm_files_of log_dir es fe ∧ pr0.1 = fp
      ∧ logicalTs mt pr0 = some ts
      ∧ ∀ pr' ∈ adm_files_of log_dir es fe, ∀ u,
          logicalTs mt pr' = some u → dtGt u ts = false := by
  rw [find_latest_adm_file] at hfp
  simp only [Bool.not_true, Bool.false_eq_true, if_false] at hfp
  by_cases hempty : (adm_files_of log_dir es fe).isEmpty = true
  · rw [if_pos hempty] at hfp
    cases hfp
  · rw [if_neg hempty] at hfp
    have hspec := latestStep_foldl_spec mt (adm_files_of log_dir es fe) (none, none) []
      (Or.inl ⟨rfl, by intro pr' h; cases h⟩)
    rcases hspec with ⟨heq, -⟩ | ⟨fp', ts, pr0, heq, hmem, hfp0, hts, hdom⟩
    · rw [heq] at hfp
      cases hfp
    · rw [heq] at hfp
      injection hfp with hfp
      subst hfp
      exact ⟨pr0, ts, by simpa using hmem, hfp0, hts, by simpa using hdom⟩

/-- Claim C9: the selector returns `none` for a missing directory, a failed
listing, or no matching candidates; otherwise its result is a candidate of
maximal logical timestamp; and on the two example files it picks the
dash-format one. -/
theorem C9_find_latest_max (log_dir : Str) (es : List Str) (fe : Str → Bool)
    (mt : Str → Option PyDateTime) :
    (∀ entries fe' mt', find_latest_adm_file log_dir false entries fe' mt' = none)
    ∧ find_latest_adm_file log_dir true none fe mt = none
    ∧ (adm_files_of log_dir es fe = [] →
        find_latest_adm_file log_dir true (some es) fe mt = none)
    ∧ (∀ fp, find_latest_adm_file log_dir true (some es) fe mt = some fp →
        ∃ pr0 ts, pr0 ∈ adm_files_of log_dir es fe ∧ pr0.1 = fp
          ∧ logicalTs mt pr0 = some ts
          ∧ ∀ pr' ∈ adm_files_of log_dir es fe, ∀ u,
              logicalTs mt pr' = some u → dtGt u ts = false)
    ∧ find_latest_adm_file "logs".data true
        (some ["DayZServer_x64_2025_05_24_224940076.ADM".data,
               "DayZServer_x64_2025-08-12_13-38-51.ADM".data])
        (fun _ => true) (fun _ => none)
      = some (pjoin "logs".data "DayZServer_x64_2025-08-12_13-38-51.ADM".data) := by
  refine ⟨fun entries fe' mt' => rfl, rfl, ?_, ?_, by decide⟩
  · intro hempty
    rw [find_latest_adm_file]
    simp [hempty]
  · intro fp hfp
    exact find_latest_some_spec hfp

/-- Claim C9, witness: the maximality part applied to the concrete example
directory. -/
theorem C9_witness :
    ∃ pr0 ts, pr0 ∈ adm_files_of "logs".data
        ["DayZServer_x64_2025_05_24_224940076.ADM".data,
         "DayZServer_x64_2025-08-12_13-38-51.ADM".data] (fun _ => true)
      ∧ pr0.1 = pjoin "logs".data "DayZServer_x64_2025-08-12_13-38-51.ADM".data
      ∧ logicalTs (fun _ => none) pr0 = some ts
      ∧ ∀ pr' ∈ adm_files_of "logs".data
          ["DayZServer_x64_2025_05_24_224940076.ADM".data,
           "DayZServer_x64_2025-08-12_13-38-51.ADM".data] (fun _ => true), ∀ u,
          logicalTs (fun _ => none) pr' = some u → dtGt u ts = false :=
  (C9_find_latest_max "logs".data
      ["DayZServer_x64_2025_05_24_224940076.ADM".data,
       "DayZServer_x64_2025-08-12_13-38-51.ADM".data] (fun _ => true)
      (fun _ => none)).2.2.2.1 _ (by decide)

/-- Decomposition of candidate membership. -/
theorem adm_files_mem {log_dir : Str} {es : List Str} {fe : Str → Bool} {pr : Str × Str}
    (h : pr ∈ adm_files_of log_dir es fe) :
    pr.2 ∈ es ∧ pr.1 = pjoin log_dir pr.2
    ∧ List.isSuffixOf ".ADM".data pr.2 = true := by
  rw [adm_files_of, List.mem_filterMap] at h
  obtain ⟨name, hname, hcond⟩ := h
  by_cases hc : (List.isSuffixOf ".ADM".data name && fe (pjoin log_dir name)) = true
  · rw [if_pos hc] at hcond
    injection hcond with h2
    subst h2
    rw [Bool.and_eq_true] at hc
    exact ⟨hname, rfl, hc.1⟩
  · rw [if_neg hc] at hcond
    cases hcond

/-- `os.path.join` with a fixed directory is injective in the filename. -/
theorem pjoin_inj {dir a b : Str} (h : pjoin dir a = pjoin dir b) : a = b := by
  rw [pjoin, pjoin] at h
  have h2 := List.append_cancel_left h
  injection h2

/-- No string ends in both `.ADM` and `.adm`. -/
theorem not_ADM_and_adm {name : Str} (h1 : List.isSuffixOf ".ADM".data name = true)
    (h2 : List.isSuffixOf ".adm".data name = true) : False := by
  rw [List.isSuffixOf_iff_suffix] at h1 h2
  obtain ⟨t1, ht1⟩ := h1
  obtain ⟨t2, ht2⟩ := h2
  rw [← ht2] at ht1
  have hlen : t1.length = t2.length := by
    have hl := congrArg List.length ht1
    simp at hl
    omega
  obtain ⟨-, hsfx⟩ := List.append_inj ht1 hlen
  exact absurd hsfx (by decide)

/-- Claim C10: only filenames ending in the exact uppercase `.ADM` are ever
selected; a lowercase `.adm` file is never the result. -/
theorem C10_adm_suffix_case_sensitive :
    (∀ (log_dir : Str) (es : List Str) (fe : Str → Bool) (mt : Str → Option PyDateTime)
        (fp : Str),
        find_latest_adm_file log_dir true (some es) fe mt = some fp →
        ∃ name, name ∈ es ∧ fp = pjoin log_dir name
          ∧ List.isSuffixOf ".ADM".data name = true)
    ∧ (∀ (log_dir : Str) (es : List Str) (fe : Str → Bool) (mt : Str → Option PyDateTime)
        (name : Str), name ∈ es → List.isSuffixOf ".adm".data name = true →
        find_latest_adm_file log_dir true (some es) fe mt ≠ some (pjoin log_dir name)) := by
  have hpart1 : ∀ (log_dir : Str) (es : List Str) (fe : Str → Bool)
      (mt : Str → Option PyDateTime) (fp : Str),
      find_latest_adm_file log_dir true (some es) fe mt = some fp →
      ∃ name, name ∈ es ∧ fp = pjoin log_dir name
        ∧ List.isSuffixOf ".ADM".data name = true := by
    intro log_dir es fe mt fp hfp
    obtain ⟨pr0, ts, hmem, hfp0, -, -⟩ := find_latest_some_spec hfp
    obtain ⟨hin, hj, hsfx⟩ := adm_files_mem hmem
    exact ⟨pr0.2, hin, by rw [← hfp0, hj], hsfx⟩
  refine ⟨hpart1, ?_⟩
  intro log_dir es fe mt name hmem hadm hfind
  obtain ⟨name', hmem', heq, hsfx⟩ := hpart1 log_dir es fe mt _ hfind
  have hnames : name = name' := pjoin_inj heq
  subst hnames
  exact not_ADM_and_adm hsfx hadm

/-- Claim C10, witness: a directory holding only `server.adm` never yields
that file. -/
theorem C10_witness :
    find_latest_adm_file "d".data true (some ["server.adm".data]) (fun _ => true)
        (fun _ => none)
      ≠ some (pjoin "d".data "server.adm".data) :=
  C10_adm_suffix_case_sensitive.2 "d".data ["server.adm".data] (fun _ => true)
    (fun _ => none) "server.adm".data (by decide) (by decide)
